import Mathlib

/-!
Verification development for the `rasl.tform` module (file `rasl/tform.py`):
the `ParamvMixin` parameterized-transform state machine, its `clone`,
`inset` and `imtransform` operations.

Modelling conventions:
* numpy float64 values are modelled by `Val`: an exact rational for finite
  values, plus NaN and the two signed infinities, with IEEE-style
  propagation in the arithmetic operations (division by zero yields an
  infinity or NaN rather than an error, NaN compares unequal to itself).
* 3x3 numpy arrays are modelled by `Mat3` with `Val` entries.
* The per-family parameter codec (`rasl.toolbox`) is not part of the
  sources; where a claim needs it, it is either kept abstract (a function
  argument) or modelled from the spec (the affine layout used by `inset`).
* numpy array aliasing (`copy.copy` sharing buffers) is modelled by a
  small store of arrays addressed by natural numbers (`Store`, `TFormH`).
-/

/-- A numpy float64 scalar value: a finite rational, NaN, or a signed
infinity. -/
inductive Val where
  | fin (q : ℚ)
  | nan
  | pinf
  | ninf
deriving DecidableEq

/-- numpy elementwise equality (`==`): NaN is unequal to everything,
including itself. -/
def Val.npEq : Val → Val → Bool
  | .fin a, .fin b => a == b
  | .pinf, .pinf => true
  | .ninf, .ninf => true
  | _, _ => false

/-- `np.isfinite`. -/
def Val.isfinite : Val → Bool
  | .fin _ => true
  | _ => false

/-- IEEE negation. -/
def Val.neg : Val → Val
  | .fin a => .fin (-a)
  | .nan => .nan
  | .pinf => .ninf
  | .ninf => .pinf

/-- IEEE addition (NaN propagates; opposite infinities give NaN). -/
def Val.add : Val → Val → Val
  | .nan, _ => .nan
  | _, .nan => .nan
  | .fin a, .fin b => .fin (a + b)
  | .pinf, .ninf => .nan
  | .ninf, .pinf => .nan
  | .pinf, _ => .pinf
  | _, .pinf => .pinf
  | .ninf, _ => .ninf
  | _, .ninf => .ninf

/-- IEEE subtraction. -/
def Val.sub (a b : Val) : Val := a.add b.neg

/-- IEEE multiplication (infinity times zero gives NaN). -/
def Val.mul : Val → Val → Val
  | .nan, _ => .nan
  | _, .nan => .nan
  | .fin a, .fin b => .fin (a * b)
  | .pinf, .fin b => if 0 < b then .pinf else if b < 0 then .ninf else .nan
  | .fin a, .pinf => if 0 < a then .pinf else if a < 0 then .ninf else .nan
  | .ninf, .fin b => if 0 < b then .ninf else if b < 0 then .pinf else .nan
  | .fin a, .ninf => if 0 < a then .ninf else if a < 0 then .pinf else .nan
  | .pinf, .pinf => .pinf
  | .pinf, .ninf => .ninf
  | .ninf, .pinf => .ninf
  | .ninf, .ninf => .pinf

/-- IEEE division: a nonzero finite value divided by (positive) zero is a
signed infinity, zero divided by zero is NaN. -/
def Val.div : Val → Val → Val
  | .nan, _ => .nan
  | _, .nan => .nan
  | .fin a, .fin b =>
      if b = 0 then (if 0 < a then .pinf else if a < 0 then .ninf else .nan)
      else .fin (a / b)
  | .pinf, .fin b => if b < 0 then .ninf else .pinf
  | .ninf, .fin b => if b < 0 then .pinf else .ninf
  | .fin _, .pinf => .fin 0
  | .fin _, .ninf => .fin 0
  | _, _ => .nan

/-- `np.floor` (NaN and infinities are fixed points). -/
def Val.floor : Val → Val
  | .fin a => .fin (Rat.floor a : ℤ)
  | .nan => .nan
  | .pinf => .pinf
  | .ninf => .ninf

/-- numpy `<` comparison: any comparison with NaN is false. -/
def Val.lt : Val → Val → Bool
  | .fin a, .fin b => a < b
  | .nan, _ => false
  | _, .nan => false
  | .ninf, .ninf => false
  | .ninf, _ => true
  | _, .ninf => false
  | .pinf, _ => false
  | .fin _, .pinf => true

/-- The largest finite float64 value, `1.7976931348623157e308`, used by
`np.nan_to_num` to replace positive infinity. -/
def maxFloat : ℚ := 2 ^ 1024 - 2 ^ 971

/-- `np.nan_to_num` on one element: NaN to 0, infinities to the extreme
finite float64 values, finite values unchanged. -/
def Val.nanToNum : Val → Val
  | .fin a => .fin a
  | .nan => .fin 0
  | .pinf => .fin maxFloat
  | .ninf => .fin (-maxFloat)

/-- A 3x3 numpy array of float64 values. -/
structure Mat3 where
  m00 : Val
  m01 : Val
  m02 : Val
  m10 : Val
  m11 : Val
  m12 : Val
  m20 : Val
  m21 : Val
  m22 : Val
deriving DecidableEq

/-- `np.eye(3)`. -/
def Mat3.eye : Mat3 :=
  { m00 := .fin 1, m01 := .fin 0, m02 := .fin 0
    m10 := .fin 0, m11 := .fin 1, m12 := .fin 0
    m20 := .fin 0, m21 := .fin 0, m22 := .fin 1 }

/-- `A.dot(B)` for 3x3 arrays, with the elementwise IEEE operations and
left-to-right summation. -/
def Mat3.mul (A B : Mat3) : Mat3 :=
  { m00 := ((A.m00.mul B.m00).add (A.m01.mul B.m10)).add (A.m02.mul B.m20)
    m01 := ((A.m00.mul B.m01).add (A.m01.mul B.m11)).add (A.m02.mul B.m21)
    m02 := ((A.m00.mul B.m02).add (A.m01.mul B.m12)).add (A.m02.mul B.m22)
    m10 := ((A.m10.mul B.m00).add (A.m11.mul B.m10)).add (A.m12.mul B.m20)
    m11 := ((A.m10.mul B.m01).add (A.m11.mul B.m11)).add (A.m12.mul B.m21)
    m12 := ((A.m10.mul B.m02).add (A.m11.mul B.m12)).add (A.m12.mul B.m22)
    m20 := ((A.m20.mul B.m00).add (A.m21.mul B.m10)).add (A.m22.mul B.m20)
    m21 := ((A.m20.mul B.m01).add (A.m21.mul B.m11)).add (A.m22.mul B.m21)
    m22 := ((A.m20.mul B.m02).add (A.m21.mul B.m12)).add (A.m22.mul B.m22) }

/-- Modelled from the spec: the affine layout of
`toolbox.parameters_to_projective_matrix` (the codec is not among the
sources). Parameters `[p0, p1, p2, p3, p4, p5]` fill the first two rows of
an identity matrix: rows `[p0, p1, p2]`, `[p3, p4, p5]`, `[0, 0, 1]`. -/
def parametersToProjectiveMatrixAffine (p : List Val) : Mat3 :=
  { m00 := p.getD 0 (.fin 1), m01 := p.getD 1 (.fin 0), m02 := p.getD 2 (.fin 0)
    m10 := p.getD 3 (.fin 0), m11 := p.getD 4 (.fin 1), m12 := p.getD 5 (.fin 0)
    m20 := .fin 0, m21 := .fin 0, m22 := .fin 1 }

/-- The value-level state of a `ParamvMixin` transform: parameter vector
`_paramv`, primary matrix `_matrix`, framing matrix `_frame`, the derived
effective matrix `params` used for warping, and the optional
`_output_shape`. -/
structure TForm where
  paramv : List Val
  matrix : Mat3
  frame : Mat3
  params : Mat3
  output_shape : Option (Val × Val)
deriving DecidableEq

/-- The `paramv` property setter: store a copy of the vector, recompute
`_matrix` through the codec, recompute `params = frame.dot(matrix)`. The
codec `toMat` abstracts `toolbox.parameters_to_projective_matrix` for the
instance's family. -/
def TForm.setParamv (toMat : List Val → Mat3) (t : TForm) (v : List Val) : TForm :=
  let m := toMat v
  { t with paramv := v, matrix := m, params := t.frame.mul m }

/-- The `matrix` property setter: store a copy of the matrix, recompute
`_paramv` through the codec, recompute `params = frame.dot(matrix)`. The
codec `toParams` abstracts `toolbox.projective_matrix_to_parameters`. -/
def TForm.setMatrix (toParams : Mat3 → List Val) (t : TForm) (m : Mat3) : TForm :=
  { t with matrix := m, paramv := toParams m, params := t.frame.mul m }

/-- The `frame` property setter: store a copy of the framing matrix and
recompute `params = frame.dot(matrix)`; `_paramv` and `_matrix` are not
touched. -/
def TForm.setFrame (t : TForm) (f : Mat3) : TForm :=
  { t with frame := f, params := f.mul t.matrix }

/-- `ParamvMixin.__init__(paramv, matrix)`: frame starts as the identity
and the output shape unset; if a matrix is given it is installed through
the matrix setter (taking precedence over any parameter vector), else a
given parameter vector is installed, else the identity parameter vector
for the family. -/
def TForm.init (toMat : List Val → Mat3) (toParams : Mat3 → List Val)
    (paramvArg : Option (List Val)) (matrixArg : Option Mat3) : TForm :=
  let base : TForm :=
    { paramv := [], matrix := Mat3.eye, frame := Mat3.eye
      params := Mat3.eye, output_shape := none }
  match matrixArg with
  | some m => TForm.setMatrix toParams base m
  | none =>
      match paramvArg with
      | some v => TForm.setParamv toMat base v
      | none => TForm.setParamv toMat base (toParams Mat3.eye)

/-- The three accepted forms of the `frame` argument of `inset`: a scalar
pixel width, a centered target size `(h, w)`, or explicit boundary corner
points `((minRow, minCol), (maxRow, maxCol))`. -/
inductive FrameSpec where
  | scalar (w : Val)
  | pair (h w : Val)
  | corners (b00 b01 b10 b11 : Val)
deriving DecidableEq

/-- The bounds-resolution step of `inset`: a scalar width `w` becomes
`((w, w), (-w-1, -w-1))`; a size pair becomes the centered window
`(floor(inset), floor(-inset-1))` with `inset = (shape - size)/2`; corner
points pass through. -/
def resolveBounds (shape : Val × Val) : FrameSpec → (Val × Val) × (Val × Val)
  | .scalar w =>
      ((w, w), (w.neg.sub (.fin 1), w.neg.sub (.fin 1)))
  | .pair h w =>
      let i0 := (shape.1.sub h).div (.fin 2)
      let i1 := (shape.2.sub w).div (.fin 2)
      ((i0.floor, i1.floor),
       ((i0.neg.sub (.fin 1)).floor, (i1.neg.sub (.fin 1)).floor))
  | .corners b00 b01 b10 b11 => ((b00, b01), (b10, b11))

/-- `np.where(bounds < 0, shape + bounds, bounds)` on one component:
negative components index from the far edge. -/
def negAdj (s v : Val) : Val := if v.lt (.fin 0) then s.add v else v

/-- `ParamvMixin.inset(shape, frame, crop)`: resolve the boundary
specification, reinterpret negative components relative to `shape`,
derive scale and output shape per `crop`, build the affine frame matrix
with the x/y axis swap `[scale[1], 0, bounds[0,1], 0, scale[0],
bounds[0,0]]`, and install it through the frame setter. No input
validation is performed anywhere in this method. -/
def TForm.inset (t : TForm) (shape : Val × Val) (spec : FrameSpec)
    (crop : Bool) : TForm :=
  let b := resolveBounds shape spec
  let b00 := negAdj shape.1 b.1.1
  let b01 := negAdj shape.2 b.1.2
  let b10 := negAdj shape.1 b.2.1
  let b11 := negAdj shape.2 b.2.2
  let scale0 := if crop then Val.fin 1
    else (b10.sub b00).div (shape.1.sub (.fin 1))
  let scale1 := if crop then Val.fin 1
    else (b11.sub b01).div (shape.2.sub (.fin 1))
  let oshape := if crop then
      ((b10.sub b00).add (.fin 1), (b11.sub b01).add (.fin 1))
    else shape
  let framemat := parametersToProjectiveMatrixAffine
    [scale1, .fin 0, b01, .fin 0, scale0, b00]
  TForm.setFrame { t with output_shape := some oshape } framemat

/-- A float64 image as a list of rows. -/
abbrev Image := List (List Val)

/-- Errors of this component (the source raises `ValueError` with a NaN
message; the spec names it InvalidInputError). -/
inductive RaslError where
  | invalidInput
deriving DecidableEq

/-- The warp primitive `skimage.transform.warp` as consumed by
`imtransform`: image, matrix, interpolation order, constant fill value,
preserve-range flag, optional output shape. It is an external
collaborator, so it stays abstract: `imtransform` takes it as an
argument. -/
abbrev WarpPrim := Image → Mat3 → Nat → Val → Bool → Option (Val × Val) → Image

/-- The post-processing step of `imtransform` on the warped image: with
`cval == 0` apply `np.nan_to_num`; with finite `cval` apply
`np.where(np.isfinite(timage), timage, cval)`; otherwise return the
warped image untouched. -/
def postprocess (cval : Val) (timg : Image) : Image :=
  if Val.npEq cval (.fin 0) then timg.map (List.map Val.nanToNum)
  else if cval.isfinite then
    timg.map (List.map (fun v => if v.isfinite then v else cval))
  else timg

/-- `ParamvMixin.imtransform(image, order, cval)`: reject any image
failing `np.all(image == image)` (i.e. containing NaN), otherwise call
the warp primitive with the effective matrix `self.params`, NaN as the
constant fill value, `preserve_range=True` and `self.output_shape`, then
post-process the result with `cval`. -/
def TForm.imtransform (warp : WarpPrim) (t : TForm) (image : Image)
    (order : Nat) (cval : Val) : Except RaslError Image :=
  if image.all (fun row => row.all (fun v => Val.npEq v v)) then
    .ok (postprocess cval (warp image t.params order .nan true t.output_shape))
  else
    .error .invalidInput

/-- One mutation of the transform state: the three property setters and
`inset`. -/
inductive Op where
  | setP (v : List Val)
  | setM (m : Mat3)
  | setF (f : Mat3)
  | doInset (shape : Val × Val) (spec : FrameSpec) (crop : Bool)
deriving DecidableEq

/-- Apply one mutation. -/
def applyOp (toMat : List Val → Mat3) (toParams : Mat3 → List Val)
    (t : TForm) : Op → TForm
  | .setP v => t.setParamv toMat v
  | .setM m => t.setMatrix toParams m
  | .setF f => t.setFrame f
  | .doInset shape spec crop => t.inset shape spec crop

/-- The effective-matrix invariant: `params` is the product
`frame.dot(matrix)`. -/
def effInv (t : TForm) : Prop := t.params = t.frame.mul t.matrix

/-- A store of numpy array buffers, addressed by allocation order:
3x3 matrix buffers and parameter-vector buffers. -/
structure Store where
  mats : List Mat3
  vecs : List (List Val)
deriving DecidableEq

/-- Read a matrix buffer. -/
def readMat (σ : Store) (a : Nat) : Mat3 := σ.mats.getD a Mat3.eye

/-- Read a vector buffer. -/
def readVec (σ : Store) (a : Nat) : List Val := σ.vecs.getD a []

/-- Overwrite a matrix buffer in place (models elementwise assignment
into a shared numpy array, e.g. `t.frame[0, 2] = 9` writ large). -/
def writeMat (σ : Store) (a : Nat) (m : Mat3) : Store :=
  { σ with mats := σ.mats.set a m }

/-- A `ParamvMixin` instance at the object level: each attribute holds a
reference into the store (`_output_shape` is `None` or a reference). -/
structure TFormH where
  paramvA : Nat
  matrixA : Nat
  frameA : Nat
  paramsA : Nat
  oshapeA : Option Nat
deriving DecidableEq

/-- The `paramv` setter at the buffer level: `np.array(paramv, copy=True)`
allocates a fresh vector buffer, the codec result is a fresh matrix
buffer, and `self.frame.dot(self.matrix)` allocates a fresh buffer for
`params`, reading the current `_frame` buffer. -/
def setParamvH (toMat : List Val → Mat3) (σ : Store) (t : TFormH)
    (v : List Val) : Store × TFormH :=
  let pa := σ.vecs.length
  let σ1 : Store := { σ with vecs := σ.vecs ++ [v] }
  let m := toMat v
  let ma := σ1.mats.length
  let σ2 : Store := { σ1 with mats := σ1.mats ++ [m] }
  let p := (readMat σ2 t.frameA).mul m
  let qa := σ2.mats.length
  let σ3 : Store := { σ2 with mats := σ2.mats ++ [p] }
  (σ3, { t with paramvA := pa, matrixA := ma, paramsA := qa })

/-- The `frame` setter at the buffer level: `np.array(frame, copy=True)`
allocates a fresh frame buffer, then `self.frame.dot(self.matrix)`
allocates a fresh `params` buffer; `_paramv` and `_matrix` keep their
buffers. -/
def setFrameH (σ : Store) (t : TFormH) (f : Mat3) : Store × TFormH :=
  let fa := σ.mats.length
  let σ1 : Store := { σ with mats := σ.mats ++ [f] }
  let p := f.mul (readMat σ1 t.matrixA)
  let qa := σ1.mats.length
  let σ2 : Store := { σ1 with mats := σ1.mats ++ [p] }
  (σ2, { t with frameA := fa, paramsA := qa })

/-- `ParamvMixin.clone(paramv)`: `copy.copy(self)` duplicates the object
but shares every attribute reference; the subsequent `cln.paramv = ...`
assignment runs the `paramv` setter on the copy (allocating fresh
`_paramv`, `_matrix` and `params` buffers, the frame read through the
still-shared `_frame` reference). -/
def cloneH (toMat : List Val → Mat3) (σ : Store) (t : TFormH)
    (paramvArg : Option (List Val)) : Store × TFormH :=
  let v := match paramvArg with
    | none => readVec σ t.paramvA
    | some v => v
  setParamvH toMat σ t v

lemma getD_append_lt {α : Type} (l m : List α) (a : Nat) (d : α)
    (h : a < l.length) : (l ++ m).getD a d = l.getD a d := by
  induction l generalizing a with
  | nil => simp at h
  | cons x xs ih =>
    cases a with
    | zero => rfl
    | succ n => simpa using ih n (by simpa using h)

lemma getD_append_len {α : Type} (l : List α) (x : α) (m : List α) (d : α) :
    (l ++ x :: m).getD l.length d = x := by
  induction l with
  | nil => rfl
  | cons y ys ih => simpa using ih

lemma effInv_applyOp (toMat : List Val → Mat3) (toParams : Mat3 → List Val)
    (t : TForm) (op : Op) : effInv (applyOp toMat toParams t op) := by
  cases op <;> rfl

/-- Claim C1: after every call of a sequence of `paramv`, `matrix`,
`frame` or `inset` mutations, the stored effective matrix `params`
equals the product `frame.dot(matrix)` — stated for an arbitrary codec,
an arbitrary starting state, and an arbitrary nonempty call sequence
(written as a first call followed by any further calls). -/
theorem effective_matrix_invariant (toMat : List Val → Mat3)
    (toParams : Mat3 → List Val) (t : TForm) (op : Op) (ops : List Op) :
    effInv ((op :: ops).foldl (applyOp toMat toParams) t) := by
  induction ops generalizing t op with
  | nil => exact effInv_applyOp toMat toParams t op
  | cons b rs ih => exact ih (applyOp toMat toParams t op) b

/-- Claim C10: giving the constructor both a parameter vector and a
matrix raises no error; the matrix takes precedence (the state is the
same as when only the matrix is given, with `paramv` derived from the
matrix by the codec) and the supplied parameter vector is ignored. -/
theorem init_matrix_precedence (toMat : List Val → Mat3)
    (toParams : Mat3 → List Val) (v : List Val) (m : Mat3) :
    TForm.init toMat toParams (some v) (some m) =
      TForm.init toMat toParams none (some m) ∧
    (TForm.init toMat toParams (some v) (some m)).paramv = toParams m ∧
    (TForm.init toMat toParams (some v) (some m)).matrix = m := by
  exact ⟨rfl, rfl, rfl⟩

/-- Claim C9: `setFrame(f)` stores a fresh copy of `f` (a new buffer,
distinct from the old frame buffer), recomputes the effective matrix
buffer to hold `f.dot(matrix)`, and leaves the parameter vector and the
primary matrix — references and contents — unchanged. -/
theorem set_frame_semantics (σ : Store) (t : TFormH) (f : Mat3)
    (hm : t.matrixA < σ.mats.length) (hf : t.frameA < σ.mats.length) :
    readMat (setFrameH σ t f).1 (setFrameH σ t f).2.frameA = f ∧
    (setFrameH σ t f).2.frameA ≠ t.frameA ∧
    readMat (setFrameH σ t f).1 (setFrameH σ t f).2.paramsA
      = f.mul (readMat σ t.matrixA) ∧
    (setFrameH σ t f).2.paramvA = t.paramvA ∧
    (setFrameH σ t f).2.matrixA = t.matrixA ∧
    readVec (setFrameH σ t f).1 t.paramvA = readVec σ t.paramvA ∧
    readMat (setFrameH σ t f).1 t.matrixA = readMat σ t.matrixA := by
  have hm1 : t.matrixA < (σ.mats ++ [f]).length := by
    simp only [List.length_append, List.length_cons, List.length_nil]
    omega
  refine ⟨?_, (Nat.ne_of_lt hf).symm, ?_, rfl, rfl, rfl, ?_⟩
  · simp only [setFrameH, readMat]
    rw [getD_append_lt _ _ _ _ (by simp), getD_append_len]
  · simp only [setFrameH, readMat]
    rw [getD_append_len, getD_append_lt _ _ _ _ hm]
  · simp only [setFrameH, readMat]
    rw [getD_append_lt _ _ _ _ hm1, getD_append_lt _ _ _ _ hm]

def toMatC : List Val → Mat3 := fun _ => Mat3.eye

def sigC : Store := { mats := [Mat3.eye, Mat3.eye, Mat3.eye], vecs := [[Val.fin 0]] }

def tC : TFormH := { paramvA := 0, matrixA := 0, frameA := 1, paramsA := 2, oshapeA := none }

def m2C : Mat3 := { Mat3.eye with m02 := Val.fin 9 }

theorem set_frame_semantics_witness :
    tC.matrixA < sigC.mats.length ∧
    readMat (setFrameH sigC tC m2C).1 (setFrameH sigC tC m2C).2.frameA = m2C :=
  ⟨by decide, (set_frame_semantics sigC tC m2C (by decide) (by decide)).1⟩

/-- Claim C2 is false as stated: after `clone()` the clone's `_frame`
attribute references the same buffer as the source's (`copy.copy` is a
shallow copy and only `paramv` is reassigned), so an in-place write to
the frame through the clone's reference changes the frame the source
reads — here the source's frame, the identity before the write, reads
back as the mutated matrix afterwards. -/
theorem clone_shares_frame_buffer :
    (cloneH toMatC sigC tC none).2.frameA = tC.frameA ∧
    readMat (cloneH toMatC sigC tC none).1 tC.frameA = Mat3.eye ∧
    readMat (writeMat (cloneH toMatC sigC tC none).1
      ((cloneH toMatC sigC tC none).2.frameA) m2C) tC.frameA = m2C ∧
    m2C ≠ Mat3.eye :=
  ⟨rfl, rfl, rfl, by decide⟩

/-- Claim C2 as amended: `clone()` with no argument yields an instance
whose parameter vector reads equal to the source's, held in fresh
`_paramv`, `_matrix` and `params` buffers (and cloning leaves every
source buffer unchanged), but the `_frame` and `_output_shape`
references are shared with the source, not independent copies. -/
theorem clone_buffer_semantics (toMat : List Val → Mat3) (σ : Store)
    (t : TFormH) (hpv : t.paramvA < σ.vecs.length)
    (hm : t.matrixA < σ.mats.length) (hf : t.frameA < σ.mats.length)
    (hp : t.paramsA < σ.mats.length) :
    readVec (cloneH toMat σ t none).1 (cloneH toMat σ t none).2.paramvA
      = readVec σ t.paramvA ∧
    (cloneH toMat σ t none).2.paramvA ≠ t.paramvA ∧
    (cloneH toMat σ t none).2.matrixA ≠ t.matrixA ∧
    (cloneH toMat σ t none).2.paramsA ≠ t.paramsA ∧
    (cloneH toMat σ t none).2.frameA = t.frameA ∧
    (cloneH toMat σ t none).2.oshapeA = t.oshapeA ∧
    readVec (cloneH toMat σ t none).1 t.paramvA = readVec σ t.paramvA ∧
    readMat (cloneH toMat σ t none).1 t.matrixA = readMat σ t.matrixA ∧
    readMat (cloneH toMat σ t none).1 t.frameA = readMat σ t.frameA ∧
    readMat (cloneH toMat σ t none).1 t.paramsA = readMat σ t.paramsA := by
  have hqa : t.paramsA < (σ.mats ++ [toMat (readVec σ t.paramvA)]).length := by
    simp only [List.length_append, List.length_cons, List.length_nil]
    omega
  have hma : t.matrixA < (σ.mats ++ [toMat (readVec σ t.paramvA)]).length := by
    simp only [List.length_append, List.length_cons, List.length_nil]
    omega
  have hfa : t.frameA < (σ.mats ++ [toMat (readVec σ t.paramvA)]).length := by
    simp only [List.length_append, List.length_cons, List.length_nil]
    omega
  refine ⟨?_, (Nat.ne_of_lt hpv).symm, (Nat.ne_of_lt hm).symm,
    (Nat.ne_of_lt hqa).symm, rfl, rfl, ?_, ?_, ?_, ?_⟩
  · simp only [cloneH, setParamvH, readVec]
    rw [getD_append_len]
  · simp only [cloneH, setParamvH, readVec]
    rw [getD_append_lt _ _ _ _ hpv]
  · simp only [cloneH, setParamvH, readMat]
    rw [getD_append_lt _ _ _ _ hma, getD_append_lt _ _ _ _ hm]
  · simp only [cloneH, setParamvH, readMat]
    rw [getD_append_lt _ _ _ _ hfa, getD_append_lt _ _ _ _ hf]
  · simp only [cloneH, setParamvH, readMat]
    rw [getD_append_lt _ _ _ _ hqa, getD_append_lt _ _ _ _ hp]

theorem clone_buffer_semantics_witness :
    tC.paramvA < sigC.vecs.length ∧
    readVec (cloneH toMatC sigC tC none).1 (cloneH toMatC sigC tC none).2.paramvA
      = readVec sigC tC.paramvA :=
  ⟨by decide,
   (clone_buffer_semantics toMatC sigC tC (by decide) (by decide) (by decide)
     (by decide)).1⟩

lemma npEq_self_iff (v : Val) : (Val.npEq v v = true) ↔ v ≠ Val.nan := by
  cases v <;> simp [Val.npEq]

/-- Claim C4: `imtransform` fails (with the invalid-input error) if and
only if the source image contains a NaN element — for every transform
state and every warp primitive, so the check happens before resampling
and does not depend on it. -/
theorem imtransform_nan_iff (warp : WarpPrim) (t : TForm) (image : Image)
    (order : Nat) (cval : Val) :
    (∃ e, TForm.imtransform warp t image order cval = .error e) ↔
    (∃ row ∈ image, Val.nan ∈ row) := by
  by_cases h : (image.all (fun row => row.all (fun v => Val.npEq v v))) = true
  · rw [TForm.imtransform, if_pos h]
    simp only [List.all_eq_true] at h
    constructor
    · rintro ⟨e, he⟩
      exact absurd he (by simp)
    · rintro ⟨row, hr, hn⟩
      exact absurd ((npEq_self_iff Val.nan).mp (h row hr Val.nan hn)) (by simp)
  · rw [TForm.imtransform, if_neg h]
    constructor
    · intro _
      simp only [List.all_eq_true, not_forall] at h
      obtain ⟨row, hr, v, hvm, hne⟩ := h
      have hv : v = Val.nan := by
        by_contra hvn
        exact hne ((npEq_self_iff v).mpr hvn)
      exact ⟨row, hr, hv ▸ hvm⟩
    · intro _
      exact ⟨.invalidInput, rfl⟩

/-- The pixelwise effect of the post-processing step, spelled out per
value class: finite values always pass through; NaN becomes 0 when
`cval == 0`, `cval` when `cval` is finite, else stays NaN; the
infinities become the extreme finite float64 values when `cval == 0`
(the `np.nan_to_num` behavior), `cval` when `cval` is finite, else pass
through. -/
def specPostPix (cval : Val) : Val → Val
  | .fin q => .fin q
  | .nan => if Val.npEq cval (.fin 0) then .fin 0
      else if cval.isfinite then cval else .nan
  | .pinf => if Val.npEq cval (.fin 0) then .fin maxFloat
      else if cval.isfinite then cval else .pinf
  | .ninf => if Val.npEq cval (.fin 0) then .fin (-maxFloat)
      else if cval.isfinite then cval else .ninf

lemma postprocess_eq_map (cval : Val) (timg : Image) :
    postprocess cval timg = timg.map (List.map (specPostPix cval)) := by
  unfold postprocess
  by_cases h0 : Val.npEq cval (.fin 0) = true
  · rw [if_pos h0]
    have hfun : Val.nanToNum = specPostPix cval := by
      funext v
      cases v <;> simp [Val.nanToNum, specPostPix, h0]
    rw [hfun]
  · by_cases hf : cval.isfinite = true
    · rw [if_neg h0, if_pos hf]
      have hfun : (fun v => if v.isfinite then v else cval) = specPostPix cval := by
        funext v
        cases cval <;> cases v <;> simp_all [Val.isfinite, specPostPix, Val.npEq]
      rw [hfun]
    · rw [if_neg h0, if_neg hf]
      have hfun : specPostPix cval = id := by
        funext v
        cases cval <;> cases v <;> simp_all [Val.isfinite, specPostPix, Val.npEq]
      rw [hfun]
      simp

def tP : TForm :=
  { paramv := [], matrix := Mat3.eye, frame := Mat3.eye
    params := Mat3.eye, output_shape := none }

def warpId : WarpPrim := fun img _ _ _ _ _ => img

def warpN : WarpPrim := fun _ _ _ _ _ _ => [[Val.nan]]

/-- Claim C5 is false as stated: with finite `cval = 1` and a warped
result holding a positive-infinity pixel (reachable from the NaN-free
source image `[[+inf]]` through an identity-like warp), the
post-processing replaces that pixel with `cval` even though it is not
NaN — the branch tests `np.isfinite`, not `np.isnan`, so non-NaN pixel
values of the warped result are not all returned unchanged. -/
theorem imtransform_changes_infinite_pixel :
    TForm.imtransform warpId tP [[Val.pinf]] 3 (Val.fin 1) = .ok [[Val.fin 1]] ∧
    Val.pinf ≠ Val.nan ∧ Val.pinf ≠ Val.fin 1 :=
  ⟨rfl, by decide, by decide⟩

/-- Claim C5 as amended: on a NaN-free input, `imtransform` returns the
warped result mapped pixelwise by `specPostPix`: finite pixels are
unchanged in every case; with `cval == 0` NaN becomes 0 and the
infinities become the extreme finite float64 values (`np.nan_to_num`);
with finite nonzero `cval` exactly the non-finite pixels (NaN and both
infinities) become `cval`; with non-finite `cval` the warped result is
returned untouched. -/
theorem imtransform_postprocess_pixelwise (warp : WarpPrim) (t : TForm)
    (image : Image) (order : Nat) (cval : Val)
    (h : (image.all (fun row => row.all (fun v => Val.npEq v v))) = true) :
    TForm.imtransform warp t image order cval =
      .ok ((warp image t.params order .nan true t.output_shape).map
        (List.map (specPostPix cval))) := by
  rw [TForm.imtransform, if_pos h, postprocess_eq_map]

theorem imtransform_postprocess_pixelwise_witness :
    (([[Val.fin 1]] : Image).all (fun row => row.all (fun v => Val.npEq v v))) = true ∧
    TForm.imtransform warpN tP [[Val.fin 1]] 0 (Val.fin 7) =
      .ok ((warpN [[Val.fin 1]] tP.params 0 .nan true tP.output_shape).map
        (List.map (specPostPix (Val.fin 7)))) :=
  ⟨by decide,
   imtransform_postprocess_pixelwise warpN tP [[Val.fin 1]] 0 (Val.fin 7) (by decide)⟩

lemma map_specPostPix_id (cval : Val) (row : List Val)
    (h : row.all Val.isfinite = true) : row.map (specPostPix cval) = row := by
  induction row with
  | nil => rfl
  | cons v vs ih =>
    simp only [List.all_cons, Bool.and_eq_true] at h
    have hv : specPostPix cval v = v := by
      cases v <;> simp_all [Val.isfinite, specPostPix]
    simp [hv, ih h.2]

lemma postprocess_allFinite (cval : Val) (img : Image)
    (h : img.all (fun row => row.all Val.isfinite) = true) :
    postprocess cval img = img := by
  rw [postprocess_eq_map]
  induction img with
  | nil => rfl
  | cons row rows ih =>
    simp only [List.all_cons, Bool.and_eq_true] at h
    simp [map_specPostPix_id cval row h.1, ih h.2]

/-- Claim C8: `imtransform` hands the warp primitive the effective
matrix `params` itself (not an inverse), NaN as the fill value,
preserve-range semantics and the stored optional output shape (the
primitive resolves an unset shape to the image's own); consequently,
for any primitive that is a no-op at the identity matrix with unset
output shape, an all-finite image with identity effective matrix comes
back unchanged for every `cval`. -/
theorem imtransform_warp_call (warp : WarpPrim) (t : TForm) (image : Image)
    (order : Nat) (cval : Val) :
    ((image.all (fun row => row.all (fun v => Val.npEq v v))) = true →
      TForm.imtransform warp t image order cval =
        .ok (postprocess cval (warp image t.params order .nan true t.output_shape))) ∧
    ((∀ img ord, warp img Mat3.eye ord Val.nan true none = img) →
      t.params = Mat3.eye → t.output_shape = none →
      (image.all (fun row => row.all Val.isfinite)) = true →
      TForm.imtransform warp t image order cval = .ok image) := by
  constructor
  · intro h
    rw [TForm.imtransform, if_pos h]
  · intro hw hp ho hfin
    have hnn : (image.all (fun row => row.all (fun v => Val.npEq v v))) = true := by
      simp only [List.all_eq_true] at hfin ⊢
      intro row hr v hv
      have hf := hfin row hr v hv
      cases v <;> simp_all [Val.isfinite, Val.npEq]
    rw [TForm.imtransform, if_pos hnn, hp, ho, hw image order,
      postprocess_allFinite cval image hfin]

theorem imtransform_warp_call_witness :
    (([[Val.fin 1, Val.fin 2]] : Image).all (fun row => row.all Val.isfinite)) = true ∧
    TForm.imtransform warpId tP [[Val.fin 1, Val.fin 2]] 3 (Val.fin 0) =
      .ok [[Val.fin 1, Val.fin 2]] :=
  ⟨by decide,
   (imtransform_warp_call warpId tP [[Val.fin 1, Val.fin 2]] 3 (Val.fin 0)).2
     (fun _ _ => rfl) rfl rfl (by decide)⟩

/-- Claim C6: in `inset`, a negative resolved bound component `v` is
reinterpreted as `shape + v` (and a nonnegative one kept), and the frame
matrix is built through the affine codec with the parameters ordered
`[scale[1], 0, bounds[0,1], 0, scale[0], bounds[0,0]]` — column scale
and column origin in the x slots, row scale and row origin in the y
slots — for every boundary-specification form and both crop modes. -/
theorem inset_frame_construction (t : TForm) (shape : Val × Val)
    (spec : FrameSpec) (crop : Bool) (s v : Val) :
    (v.lt (Val.fin 0) = true → negAdj s v = s.add v) ∧
    (v.lt (Val.fin 0) = false → negAdj s v = v) ∧
    (TForm.inset t shape spec crop).frame =
      parametersToProjectiveMatrixAffine
        [(if crop then Val.fin 1 else
            ((negAdj shape.2 (resolveBounds shape spec).2.2).sub
              (negAdj shape.2 (resolveBounds shape spec).1.2)).div
              (shape.2.sub (Val.fin 1))),
         Val.fin 0,
         negAdj shape.2 (resolveBounds shape spec).1.2,
         Val.fin 0,
         (if crop then Val.fin 1 else
            ((negAdj shape.1 (resolveBounds shape spec).2.1).sub
              (negAdj shape.1 (resolveBounds shape spec).1.1)).div
              (shape.1.sub (Val.fin 1))),
         negAdj shape.1 (resolveBounds shape spec).1.1] := by
  refine ⟨?_, ?_, ?_⟩
  · intro h
    unfold negAdj
    rw [if_pos h]
  · intro h
    unfold negAdj
    rw [if_neg (by simp [h])]
  · rfl

theorem inset_frame_construction_witness :
    Val.lt (Val.fin (-6)) (Val.fin 0) = true ∧
    negAdj (Val.fin 100) (Val.fin (-6)) = (Val.fin 100).add (Val.fin (-6)) :=
  ⟨by decide,
   (inset_frame_construction tP (Val.fin 100, Val.fin 100)
     (.scalar (Val.fin 5)) true (Val.fin 100) (Val.fin (-6))).1 (by decide)⟩

/-- Claim C7: `inset` on shape `(100, 100)` with scalar boundary `5` and
`crop = true` resolves the adjusted bounds to `((5,5), (94,94))`, sets
the output shape to `(90, 90)`, and installs the frame with unit
per-axis scale and translation origin `(5, 5)` — from any starting
transform state. -/
theorem inset_scalar_five_crop (t : TForm) :
    negAdj (Val.fin 100)
      (resolveBounds (Val.fin 100, Val.fin 100) (.scalar (Val.fin 5))).1.1
      = Val.fin 5 ∧
    negAdj (Val.fin 100)
      (resolveBounds (Val.fin 100, Val.fin 100) (.scalar (Val.fin 5))).1.2
      = Val.fin 5 ∧
    negAdj (Val.fin 100)
      (resolveBounds (Val.fin 100, Val.fin 100) (.scalar (Val.fin 5))).2.1
      = Val.fin 94 ∧
    negAdj (Val.fin 100)
      (resolveBounds (Val.fin 100, Val.fin 100) (.scalar (Val.fin 5))).2.2
      = Val.fin 94 ∧
    (TForm.inset t (Val.fin 100, Val.fin 100) (.scalar (Val.fin 5))
      true).output_shape = some (Val.fin 90, Val.fin 90) ∧
    (TForm.inset t (Val.fin 100, Val.fin 100) (.scalar (Val.fin 5))
      true).frame =
      { m00 := .fin 1, m01 := .fin 0, m02 := .fin 5
        m10 := .fin 0, m11 := .fin 1, m12 := .fin 5
        m20 := .fin 0, m21 := .fin 0, m22 := .fin 1 } := by
  refine ⟨?_, ?_, ?_, ?_, ?_, ?_⟩ <;>
    norm_num [TForm.inset, TForm.setFrame, parametersToProjectiveMatrixAffine,
      resolveBounds, negAdj, Val.lt, Val.neg, Val.sub, Val.add, List.getD]

/-- Claim C3 is false as stated: `inset` with `crop = false` contains no
validation and raises nothing. On shape `(1, 1)` (division by zero in
the scale computation) it returns normally with NaN in both scale slots
of the frame, and on a negative-extent window (bounds `((2,2), (0,0))`
over shape `(5, 5)`) it returns normally with a negative finite scale. -/
theorem inset_degenerate_no_error :
    (TForm.inset tP (Val.fin 1, Val.fin 1)
      (.corners (Val.fin 0) (Val.fin 0) (Val.fin 0) (Val.fin 0))
      false).frame.m00 = Val.nan ∧
    (TForm.inset tP (Val.fin 1, Val.fin 1)
      (.corners (Val.fin 0) (Val.fin 0) (Val.fin 0) (Val.fin 0))
      false).frame.m11 = Val.nan ∧
    (TForm.inset tP (Val.fin 1, Val.fin 1)
      (.corners (Val.fin 0) (Val.fin 0) (Val.fin 0) (Val.fin 0))
      false).output_shape = some (Val.fin 1, Val.fin 1) ∧
    (TForm.inset tP (Val.fin 5, Val.fin 5)
      (.corners (Val.fin 2) (Val.fin 2) (Val.fin 0) (Val.fin 0))
      false).frame.m11 = Val.fin (-1/2) := by
  refine ⟨?_, ?_, ?_, ?_⟩ <;>
    norm_num [TForm.inset, TForm.setFrame, parametersToProjectiveMatrixAffine,
      resolveBounds, negAdj, Val.lt, Val.neg, Val.sub, Val.add, Val.div,
      List.getD]

lemma finSub_fin (x y : ℚ) : (Val.fin x).sub (Val.fin y) = Val.fin (x - y) := by
  simp [Val.sub, Val.add, Val.neg, sub_eq_add_neg]

lemma finDiv_zero_not_finite (d : ℚ) :
    ((Val.fin d).div (Val.fin 0)).isfinite = false := by
  simp only [Val.div, if_pos rfl]
  by_cases h1 : 0 < d
  · simp [h1, Val.isfinite]
  · by_cases h2 : d < 0 <;> simp [h1, h2, Val.isfinite]

lemma negAdj_fin (s q : ℚ) :
    ∃ c : ℚ, negAdj (Val.fin s) (Val.fin q) = Val.fin c := by
  unfold negAdj
  by_cases h : Val.lt (Val.fin q) (Val.fin 0) = true
  · exact ⟨s + q, by simp [h, Val.add]⟩
  · exact ⟨q, by simp [h]⟩

/-- Claim C3 as amended: `inset` with `crop = false` performs no
validation and raises no error; when an axis has shape 1, the scale of
that axis is computed by IEEE division by zero and the corresponding
frame scale slot silently holds a non-finite value (NaN or a signed
infinity), for all finite boundary corner points. -/
theorem inset_shape_one_nonfinite_scale (t : TForm) (s1 : Val)
    (b00 b01 b10 b11 : ℚ) :
    ((TForm.inset t (Val.fin 1, s1)
      (.corners (Val.fin b00) (Val.fin b01) (Val.fin b10) (Val.fin b11))
      false).frame.m11).isfinite = false := by
  have key : (TForm.inset t (Val.fin 1, s1)
      (.corners (Val.fin b00) (Val.fin b01) (Val.fin b10) (Val.fin b11))
      false).frame.m11 =
      ((negAdj (Val.fin 1) (Val.fin b10)).sub
        (negAdj (Val.fin 1) (Val.fin b00))).div
        ((Val.fin 1).sub (Val.fin 1)) := rfl
  rw [key]
  obtain ⟨c10, h10⟩ := negAdj_fin 1 b10
  obtain ⟨c00, h00⟩ := negAdj_fin 1 b00
  rw [h10, h00, finSub_fin, finSub_fin]
  have h11 : (1 : ℚ) - 1 = 0 := by norm_num
  rw [h11]
  exact finDiv_zero_not_finite _
